import Mathlib

/-!
Verification development for the anqueue task-queue library.

The definitions below are a shallow embedding of the TypeScript sources:

* `QueueTask`, `QueueTask.validate`, `QueueTask.execute`, `QueueTask.retryStep`
  embed `src/src/task.ts`;
* `QueueTask.construct` / `QueueTask.fromPlainObject` embed the `QueueTask`
  constructor and `fromPlainObject`;
* `removeFromStack` embeds `Queue.remove` (`src/index.ts`, `src/types/index.d.ts`);
* `single` and `batch` embed the dispatch strategies in
  `src/src/worker-manager.ts` (third document of that file);
* `getAvailableWorkers` / `getAvailable` embed the `WorkerManager` methods
  (second document of `src/src/worker-manager.ts`);
* `withWorkerCapacity` / `processOneTaskLoad` embed the `taskLoad` accounting
  of the worker runtime (`src/unnamed/part_001`);
* `adapterUpsert` embeds `PrismaAdapter.upsert` (`src/src/database-adapter.ts`).

JavaScript-specific behaviour is modelled explicitly: `JSVal` models the
truthiness of arbitrary JS values, `jsOrStr`/`jsOrInt`/`jsOrNat` model the
JS `||` operator on possibly-absent fields (with `""` and `0` falsy), and
`jsIncludes` models `String.prototype.includes` (substring containment).
-/

namespace Anqueue

/-- Task lifecycle states, as in the `status` field of `QueueTask`. -/
inductive TStatus where
  | pending
  | running
  | completed
  | failed
  | cancelled
deriving DecidableEq, Repr

/-- Truthiness classes of a JavaScript value: the boolean `true`, the boolean
`false`, a truthy non-boolean value, or a falsy non-boolean value. -/
inductive JSVal where
  | vTrue
  | vFalse
  | truthyVal
  | falsyVal
deriving DecidableEq, Repr

/-- JS truthiness of a `JSVal`. -/
def JSVal.truthy : JSVal → Bool
  | .vTrue => true
  | .truthyVal => true
  | _ => false

/-- Model of the JS `||` operator on a possibly-absent string field with a
default: `undefined` and the empty string are falsy. -/
def jsOrStr (v : Option String) (d : String) : String :=
  match v with
  | some s => if s = "" then d else s
  | none => d

/-- Model of the JS `||` operator on a possibly-absent integer field with a
default: `undefined` and `0` are falsy. -/
def jsOrInt (v : Option Int) (d : Int) : Int :=
  match v with
  | some n => if n = 0 then d else n
  | none => d

/-- Model of the JS `||` operator on a possibly-absent natural-number field
with a default: `undefined` and `0` are falsy. -/
def jsOrNat (v : Option Nat) (d : Nat) : Nat :=
  match v with
  | some n => if n = 0 then d else n
  | none => d

/-- State of a `QueueTask` (`src/src/task.ts`).  Dates are modelled as
natural-number timestamps; `error` and `errorHistory` keep the error
messages.  The `data` payload is an arbitrary type `α`. -/
structure QueueTask (α : Type) where
  uid : String
  name : String
  type : String
  description : Option String := none
  status : TStatus := .pending
  progress : Nat := 0
  startedAt : Option Nat := none
  failedAt : Option Nat := none
  completedAt : Option Nat := none
  priority : Int := 0
  retryCount : Nat := 0
  maxRetries : Nat := 3
  delay : Nat := 0
  timeout : Nat := 30000
  runAt : Option Nat := none
  data : α
  userId : Option Int := none
  metadata : List (String × String) := []
  error : Option String := none
  errorHistory : List String := []
deriving DecidableEq, Repr

/-- Plain-object options accepted by the `QueueTask` constructor
(`TaskOptions`): every configuration field may be absent. -/
structure TaskOptions (α : Type) where
  uid : Option String := none
  name : String
  type : String
  description : Option String := none
  priority : Option Int := none
  maxRetries : Option Nat := none
  delay : Option Nat := none
  timeout : Option Nat := none
  runAt : Option Nat := none
  data : α
  userId : Option Int := none
  metadata : Option (List (String × String)) := none
deriving DecidableEq, Repr

/-- Environment variables read by the `QueueTask` constructor
(`MAX_TASK_RETRIES`, `TASK_TIMEOUT_MS`); `none` models an unset variable
(whose `Number(...)` is `NaN`, hence falsy). -/
structure TaskEnv where
  maxTaskRetries : Option Nat := none
  taskTimeoutMs : Option Nat := none
deriving DecidableEq, Repr

/-- The `QueueTask` constructor (`src/src/task.ts`, lines 40-58).  `genId`
is the value `#generateId()` would produce for this construction; it is of
the form `task_..._...` and in particular non-empty. -/
def QueueTask.construct (env : TaskEnv) (genId : String) (o : TaskOptions α) : QueueTask α where
  uid := jsOrStr o.uid genId
  name := o.name
  type := o.type
  description := o.description
  priority := jsOrInt o.priority 0
  maxRetries := jsOrNat o.maxRetries (jsOrNat env.maxTaskRetries 3)
  delay := jsOrNat o.delay 0
  timeout := jsOrNat o.timeout (jsOrNat env.taskTimeoutMs 30000)
  runAt := o.runAt
  data := o.data
  userId := o.userId
  metadata := o.metadata.getD []

/-- The `QueueTask.fromPlainObject` static method: it spreads the plain
object into the constructor. -/
def QueueTask.fromPlainObject (env : TaskEnv) (genId : String) (o : TaskOptions α) : QueueTask α :=
  QueueTask.construct env genId o

/-- The serialized snapshot of a task, as produced when the task object
crosses the process boundary: every constructor-relevant field of the task,
present. -/
def QueueTask.toPlainObject (t : QueueTask α) : TaskOptions α where
  uid := some t.uid
  name := t.name
  type := t.type
  description := t.description
  priority := some t.priority
  maxRetries := some t.maxRetries
  delay := some t.delay
  timeout := some t.timeout
  runAt := t.runAt
  data := t.data
  userId := t.userId
  metadata := some t.metadata

/-- A value of a `validationSchema()` array: either not a function (skipped
by `validate`), or a function on tasks returning a JS value; `code` models
the normalized `validator.toString()` source representation. -/
inductive Validator (α : Type) where
  | notFn
  | fn (code : String) (f : QueueTask α → JSVal)

/-- Result record of `QueueTask.validate`. -/
structure ValidationResult where
  passed : Bool
  reason : String
deriving DecidableEq, Repr

/-- The `validate` method (`src/src/task.ts`, lines 67-85): a `forEach` over
the schema that skips non-functions and, on every validator whose result is
not truthy, overwrites `reason` and sets `passed := false`. -/
def QueueTask.validate (t : QueueTask α) (schema : List (Validator α)) : ValidationResult :=
  schema.foldl
    (fun res v =>
      match v with
      | .notFn => res
      | .fn code f =>
          if (f t).truthy then res
          else { passed := false,
                 reason := "ValidationRule \"" ++ code ++ "\" did not resolve to true" })
    { passed := true, reason := "Validation passed" }

/-- Occurrence of `pat` at the head of `s` (helper for `jsIncludes`). -/
def prefixAt : List Char → List Char → Bool
  | [], _ => true
  | _ :: _, [] => false
  | a :: pat, b :: s => a == b && prefixAt pat s

/-- Model of JS `String.prototype.includes`: `pat` occurs somewhere in `s`
as a contiguous substring. -/
def jsIncludes (s pat : String) : Bool :=
  go pat.toList s.toList
where
  /-- Scan of the haystack for an occurrence of the pattern. -/
  go (pat : List Char) : List Char → Bool
    | [] => pat.isEmpty
    | c :: tl => prefixAt pat (c :: tl) || go pat tl

/-- The `#shouldRetry` private method (`src/src/task.ts`, lines 234-241):
the candidate patterns are `"Network timeout"` plus the retry schema, and
the error message must contain one of them as a substring. -/
def shouldRetry (errMsg : String) (retrySchema : List String) : Bool :=
  ("Network timeout" :: retrySchema).any (fun pattern => jsIncludes errMsg pattern)

/-- The `#retry` private method (`src/src/task.ts`, lines 178-191): `none`
models returning `false` without mutating; `some` carries the mutated task. -/
def QueueTask.retryStep (t : QueueTask α) : Option (QueueTask α) :=
  if t.retryCount ≥ t.maxRetries then none
  else some { t with
    retryCount := t.retryCount + 1
    status := .pending
    progress := 0
    startedAt := none
    completedAt := none
    error := none }

/-- The mutation at the top of `execute`: status `running`, `startedAt`
stamped, progress reset. -/
def QueueTask.runState (t : QueueTask α) (now : Nat) : QueueTask α :=
  { t with status := .running, startedAt := some now, progress := 0 }

/-- The `#setFailed` private method. -/
def QueueTask.setFailed (t : QueueTask α) (now : Nat) : QueueTask α :=
  { t with status := .failed, failedAt := some now, progress := 0 }

/-- The `#setCompleted` private method. -/
def QueueTask.setCompleted (t : QueueTask α) (now : Nat) : QueueTask α :=
  { t with status := .completed, completedAt := some now, progress := 100 }

/-- The `addError` method: record the most recent error and append it to the
history. -/
def QueueTask.addError (t : QueueTask α) (msg : String) : QueueTask α :=
  { t with error := some msg, errorHistory := t.errorHistory ++ [msg] }

/-- The `#handleError` private method: `addError` then `#setFailed` (the
promise rejection is not part of the state model). -/
def QueueTask.handleError (t : QueueTask α) (msg : String) (now : Nat) : QueueTask α :=
  (t.addError msg).setFailed now

/-- Outcome of one attempt of the race between the executor promise and the
timeout promise inside `execute`: either the executor settles first with a
`TaskResult` whose `processed` flag and payload are given, or the attempt
fails (the executor threw or rejected, or the timeout promise rejected
first, whose message is `Task <uid> timed out after <timeout>ms`). -/
inductive AttemptOutcome (ρ : Type) where
  | success (processed : Bool) (result : ρ)
  | failure (errMsg : String)

/-- The `execute` method (`src/src/task.ts`, lines 87-127).  `beh n` is the
outcome of the attempt made while `retryCount = n` (each retry increments
`retryCount`, so attempts are indexed by it).  The returned pair is the
final task state together with the settled value: `Except.ok` models a
normal return of the executor result, `Except.error` a thrown error. -/
def QueueTask.execute (beh : Nat → AttemptOutcome ρ) (retrySchema : List String)
    (now : Nat) (t : QueueTask α) : QueueTask α × Except String ρ :=
  if t.status = .pending then
    match beh t.retryCount with
    | .success processed r =>
        if processed = false then ((t.runState now).setFailed now, .ok r)
        else ((t.runState now).setCompleted now, .ok r)
    | .failure msg =>
        if shouldRetry msg retrySchema then
          match h : (t.runState now).retryStep with
          | some t2 => QueueTask.execute beh retrySchema now t2
          | none => ((t.runState now).handleError msg now, .error msg)
        else ((t.runState now).handleError msg now, .error msg)
  else (t, .error ("Task " ++ t.uid ++ " is not in pending status"))
termination_by t.maxRetries - t.retryCount
decreasing_by
  simp only [QueueTask.retryStep, QueueTask.runState] at h
  split at h
  · exact absurd h (by simp)
  · rename_i hlt
    simp only [Option.some.injEq] at h
    subst h
    simp only [ge_iff_le, not_le] at hlt
    dsimp only
    omega

/-- A concrete task used by witnesses and counterexamples. -/
def sampleTask : QueueTask Unit :=
  { uid := "task-1", name := "sample", type := "sample-type", data := () }

/-! Helper lemmas about the substring model. -/

theorem prefixAt_iff (p s : List Char) : prefixAt p s = true ↔ ∃ r, s = p ++ r := by
  induction p generalizing s with
  | nil => simp [prefixAt]
  | cons a p ih =>
    cases s with
    | nil => simp [prefixAt]
    | cons b s =>
      simp only [prefixAt, Bool.and_eq_true, beq_iff_eq, ih]
      constructor
      · rintro ⟨hab, r, hr⟩
        exact ⟨r, by simp [hab, hr]⟩
      · rintro ⟨r, hr⟩
        simp only [List.cons_append, List.cons.injEq] at hr
        exact ⟨hr.1.symm, r, hr.2⟩

theorem jsIncludes_go_iff (pat s : List Char) :
    jsIncludes.go pat s = true ↔ ∃ l r, s = l ++ pat ++ r := by
  induction s with
  | nil =>
    simp only [jsIncludes.go, List.isEmpty_iff]
    constructor
    · intro h
      exact ⟨[], [], by simp [h]⟩
    · rintro ⟨l, r, hr⟩
      have := hr.symm
      simp only [List.append_eq_nil] at this
      exact this.1.2
  | cons c tl ih =>
    simp only [jsIncludes.go, Bool.or_eq_true, prefixAt_iff, ih]
    constructor
    · rintro (⟨r, hr⟩ | ⟨l, r, hr⟩)
      · exact ⟨[], r, by simp [hr]⟩
      · exact ⟨c :: l, r, by simp [hr]⟩
    · rintro ⟨l, r, hr⟩
      cases l with
      | nil => exact Or.inl ⟨r, by simpa using hr⟩
      | cons x l =>
        simp only [List.cons_append, List.cons.injEq] at hr
        exact Or.inr ⟨l, r, hr.2⟩

theorem jsIncludes_iff (s pat : String) :
    jsIncludes s pat = true ↔ ∃ l r, s.toList = l ++ pat.toList ++ r :=
  jsIncludes_go_iff pat.toList s.toList

theorem shouldRetry_iff (msg : String) (rs : List String) :
    shouldRetry msg rs = true ↔
      ∃ p ∈ ("Network timeout" :: rs), ∃ l r, msg.toList = l ++ p.toList ++ r := by
  simp [shouldRetry, List.any_eq_true, jsIncludes_iff]

/-- C3: on a task in `pending` state, when the race settles with the
executor result `{processed, r}` within the timeout, `execute` returns the
result; if `processed = true` the task ends `completed` with `completedAt`
stamped and `progress = 100`, and if `processed = false` it ends `failed`
with `failedAt` stamped, `progress = 0`, the result still returned and
`retryCount` unchanged (no retry). -/
theorem execute_settled_semantics {α ρ : Type} (t : QueueTask α)
    (beh : Nat → AttemptOutcome ρ) (rs : List String) (now : Nat)
    (processed : Bool) (r : ρ)
    (hp : t.status = .pending) (hb : beh t.retryCount = .success processed r) :
    (t.execute beh rs now).2 = .ok r ∧
    (processed = true →
      (t.execute beh rs now).1.status = .completed ∧
      (t.execute beh rs now).1.completedAt = some now ∧
      (t.execute beh rs now).1.progress = 100) ∧
    (processed = false →
      (t.execute beh rs now).1.status = .failed ∧
      (t.execute beh rs now).1.failedAt = some now ∧
      (t.execute beh rs now).1.progress = 0 ∧
      (t.execute beh rs now).1.retryCount = t.retryCount) := by
  rw [QueueTask.execute]
  cases processed with
  | true =>
    simp [hp, hb, QueueTask.runState, QueueTask.setCompleted]
  | false =>
    simp [hp, hb, QueueTask.runState, QueueTask.setFailed]

/-- Witness for C3 at a concrete pending task and an executor that settles
with `processed = true` and result `42`. -/
theorem execute_settled_semantics_witness :
    (sampleTask.status = TStatus.pending ∧
      (fun _ => AttemptOutcome.success true (42 : Nat)) sampleTask.retryCount
        = AttemptOutcome.success true 42) ∧
    ((sampleTask.execute (fun _ => AttemptOutcome.success true (42 : Nat)) [] 7).2
        = Except.ok 42 ∧
      (sampleTask.execute (fun _ => AttemptOutcome.success true (42 : Nat)) [] 7).1.status
        = TStatus.completed ∧
      (sampleTask.execute (fun _ => AttemptOutcome.success true (42 : Nat)) [] 7).1.completedAt
        = some 7 ∧
      (sampleTask.execute (fun _ => AttemptOutcome.success true (42 : Nat)) [] 7).1.progress
        = 100) := by
  have h := execute_settled_semantics sampleTask
    (fun _ => AttemptOutcome.success true (42 : Nat)) [] 7 true 42 rfl rfl
  exact ⟨⟨rfl, rfl⟩, h.1, h.2.1 rfl⟩

/-- Helper invariant: `execute` keeps `retryCount` bounded by `maxRetries`
whenever it starts below the bound. -/
theorem execute_rc_le_aux {α ρ : Type} :
    ∀ (n : Nat) (t : QueueTask α) (beh : Nat → AttemptOutcome ρ)
      (rs : List String) (now : Nat),
      t.maxRetries - t.retryCount ≤ n → t.retryCount ≤ t.maxRetries →
      ((QueueTask.execute beh rs now t).1).retryCount
        ≤ ((QueueTask.execute beh rs now t).1).maxRetries := by
  intro n
  induction n with
  | zero =>
    intro t beh rs now hn hle
    rw [QueueTask.execute]
    split
    · cases hbeh : beh t.retryCount with
      | success processed r =>
        dsimp only
        split <;>
          simpa [QueueTask.runState, QueueTask.setFailed, QueueTask.setCompleted] using hle
      | failure msg =>
        dsimp only
        split
        · split
          · rename_i t2 heq
            exfalso
            have hge : t.retryCount ≥ t.maxRetries := by omega
            simp [QueueTask.runState, QueueTask.retryStep, hge] at heq
          · simpa [QueueTask.runState, QueueTask.handleError, QueueTask.addError,
              QueueTask.setFailed] using hle
        · simpa [QueueTask.runState, QueueTask.handleError, QueueTask.addError,
            QueueTask.setFailed] using hle
    · exact hle
  | succ n ih =>
    intro t beh rs now hn hle
    rw [QueueTask.execute]
    split
    · cases hbeh : beh t.retryCount with
      | success processed r =>
        dsimp only
        split <;>
          simpa [QueueTask.runState, QueueTask.setFailed, QueueTask.setCompleted] using hle
      | failure msg =>
        dsimp only
        split
        · split
          · rename_i t2 heq
            simp only [QueueTask.runState, QueueTask.retryStep] at heq
            split at heq
            · exact absurd heq (by simp)
            · rename_i hlt
              simp only [Option.some.injEq] at heq
              subst heq
              refine ih _ beh rs now ?_ ?_ <;> dsimp only <;> omega
          · simpa [QueueTask.runState, QueueTask.handleError, QueueTask.addError,
              QueueTask.setFailed] using hle
        · simpa [QueueTask.runState, QueueTask.handleError, QueueTask.addError,
            QueueTask.setFailed] using hle
    · exact hle

/-- C4: the retry engine of `execute`.  (1) `#shouldRetry` holds exactly
when the error message contains `"Network timeout"` or a `retrySchema()`
entry as a substring; (2) `#retry` mutates exactly when
`retryCount < maxRetries`; (3) a successful `#retry` increments
`retryCount` by exactly one, resets `status` to `pending` and `progress` to
0, and clears `startedAt`, `completedAt`, `error` (keeping `maxRetries` and
`errorHistory`); (4) on a thrown/timeout attempt, `execute` re-executes
exactly when both conditions hold, and otherwise finalizes as failed with
the error recorded; (5) consequently `retryCount ≤ maxRetries` is
preserved by `execute`. -/
theorem execute_retry_engine {α ρ : Type} :
    (∀ (msg : String) (rs : List String),
      shouldRetry msg rs = true ↔
        ∃ p ∈ ("Network timeout" :: rs), ∃ l r, msg.toList = l ++ p.toList ++ r) ∧
    (∀ t : QueueTask α, (∃ t2, t.retryStep = some t2) ↔ t.retryCount < t.maxRetries) ∧
    (∀ t t2 : QueueTask α, t.retryStep = some t2 →
      t2.retryCount = t.retryCount + 1 ∧ t2.status = .pending ∧ t2.progress = 0 ∧
      t2.startedAt = none ∧ t2.completedAt = none ∧ t2.error = none ∧
      t2.maxRetries = t.maxRetries ∧ t2.errorHistory = t.errorHistory) ∧
    (∀ (t : QueueTask α) (beh : Nat → AttemptOutcome ρ) (rs : List String)
       (now : Nat) (msg : String),
      t.status = .pending → beh t.retryCount = .failure msg →
      (shouldRetry msg rs = true ∧ t.retryCount < t.maxRetries →
        ∃ t2, (t.runState now).retryStep = some t2 ∧
          t.execute beh rs now = QueueTask.execute beh rs now t2) ∧
      (shouldRetry msg rs = false ∨ t.maxRetries ≤ t.retryCount →
        t.execute beh rs now = ((t.runState now).handleError msg now, .error msg))) ∧
    (∀ (t : QueueTask α) (beh : Nat → AttemptOutcome ρ) (rs : List String) (now : Nat),
      t.retryCount ≤ t.maxRetries →
      ((t.execute beh rs now).1).retryCount ≤ ((t.execute beh rs now).1).maxRetries) := by
  refine ⟨shouldRetry_iff, ?_, ?_, ?_, ?_⟩
  · intro t
    by_cases hge : t.retryCount ≥ t.maxRetries <;> simp [QueueTask.retryStep, hge] <;> omega
  · intro t t2 h
    simp only [QueueTask.retryStep] at h
    split at h
    · exact absurd h (by simp)
    · simp only [Option.some.injEq] at h
      subst h
      simp
  · intro t beh rs now msg hp hb
    constructor
    · rintro ⟨hs, hlt⟩
      have hlt2 : ¬ ((t.runState now).retryCount ≥ (t.runState now).maxRetries) := by
        simp only [QueueTask.runState]
        omega
      have h2 : ∃ t2, (t.runState now).retryStep = some t2 := by
        simp [QueueTask.retryStep, hlt2]
      obtain ⟨t2, h2⟩ := h2
      refine ⟨t2, h2, ?_⟩
      rw [QueueTask.execute]
      simp only [hp, hb, hs, if_pos rfl, if_true]
      split
      · rename_i t2a heq
        rw [h2] at heq
        simp only [Option.some.injEq] at heq
        rw [heq]
      · rename_i heq
        rw [h2] at heq
        exact absurd heq (by simp)
    · intro hneg
      rw [QueueTask.execute]
      simp only [hp, hb, if_pos rfl]
      rcases hneg with hs | hge
      · simp [hs]
      · by_cases hs : shouldRetry msg rs
        · have hnone : (t.runState now).retryStep = none := by
            have : (t.runState now).retryCount ≥ (t.runState now).maxRetries := by
              simp only [QueueTask.runState]
              omega
            simp [QueueTask.retryStep, this]
          simp only [hs, if_true]
          split
          · rename_i t2a heq
            rw [hnone] at heq
            exact absurd heq (by simp)
          · rfl
        · simp [hs]
  · intro t beh rs now hle
    exact execute_rc_le_aux (t.maxRetries - t.retryCount) t beh rs now (Nat.le_refl _) hle

/-- Witness for C4: the invariant part applied to a concrete task whose
`retryCount` is below `maxRetries`, with a behaviour that always throws a
retryable error. -/
theorem execute_retry_engine_witness :
    sampleTask.retryCount ≤ sampleTask.maxRetries ∧
    ((sampleTask.execute (fun _ => AttemptOutcome.failure "Network timeout hit" (ρ := Nat))
        ["timed out"] 0).1).retryCount
      ≤ ((sampleTask.execute (fun _ => AttemptOutcome.failure "Network timeout hit" (ρ := Nat))
        ["timed out"] 0).1).maxRetries :=
  ⟨by decide,
    (execute_retry_engine (α := Unit) (ρ := Nat)).2.2.2.2 sampleTask
      (fun _ => AttemptOutcome.failure "Network timeout hit") ["timed out"] 0 (by decide)⟩

/-! Helper lemmas about the JS default operator. -/

theorem jsOrStr_roundTrip (v : Option String) (d d2 : String) (hd : d ≠ "") :
    jsOrStr (some (jsOrStr v d)) d2 = jsOrStr v d := by
  cases v with
  | none => simp [jsOrStr, hd]
  | some s =>
    by_cases hs : s = "" <;> simp [jsOrStr, hs, hd]

theorem jsOrNat_ne_zero (v : Option Nat) (d : Nat) (hd : d ≠ 0) : jsOrNat v d ≠ 0 := by
  cases v with
  | none => simpa [jsOrNat] using hd
  | some n => by_cases hn : n = 0 <;> simp [jsOrNat, hn, hd]

theorem jsOrNat_roundTrip (v : Option Nat) (d d2 : Nat) (hd : d ≠ 0) :
    jsOrNat (some (jsOrNat v d)) d2 = jsOrNat v d := by
  have h := jsOrNat_ne_zero v d hd
  generalize hX : jsOrNat v d = X at h ⊢
  simp [jsOrNat, h]

theorem jsOrInt_zero_roundTrip (v : Option Int) :
    jsOrInt (some (jsOrInt v 0)) 0 = jsOrInt v 0 := by
  cases v with
  | none => simp [jsOrInt]
  | some n => by_cases hn : n = 0 <;> simp [jsOrInt, hn]

/-- C9: round-trip law.  For any task produced by the `QueueTask`
constructor, rebuilding a task from its serialized snapshot with
`fromPlainObject` (under any environment and any freshly generated id)
preserves `uid`, `type`, `name`, `description`, `data`, `metadata`,
`priority`, `maxRetries`, `timeout` and `runAt`. -/
theorem fromPlainObject_roundTrip {α : Type} (env env2 : TaskEnv) (gid gid2 : String)
    (o : TaskOptions α) (hgid : gid ≠ "") :
    (QueueTask.fromPlainObject env2 gid2 (QueueTask.construct env gid o).toPlainObject).uid
      = (QueueTask.construct env gid o).uid ∧
    (QueueTask.fromPlainObject env2 gid2 (QueueTask.construct env gid o).toPlainObject).type
      = (QueueTask.construct env gid o).type ∧
    (QueueTask.fromPlainObject env2 gid2 (QueueTask.construct env gid o).toPlainObject).name
      = (QueueTask.construct env gid o).name ∧
    (QueueTask.fromPlainObject env2 gid2 (QueueTask.construct env gid o).toPlainObject).description
      = (QueueTask.construct env gid o).description ∧
    (QueueTask.fromPlainObject env2 gid2 (QueueTask.construct env gid o).toPlainObject).data
      = (QueueTask.construct env gid o).data ∧
    (QueueTask.fromPlainObject env2 gid2 (QueueTask.construct env gid o).toPlainObject).metadata
      = (QueueTask.construct env gid o).metadata ∧
    (QueueTask.fromPlainObject env2 gid2 (QueueTask.construct env gid o).toPlainObject).priority
      = (QueueTask.construct env gid o).priority ∧
    (QueueTask.fromPlainObject env2 gid2 (QueueTask.construct env gid o).toPlainObject).maxRetries
      = (QueueTask.construct env gid o).maxRetries ∧
    (QueueTask.fromPlainObject env2 gid2 (QueueTask.construct env gid o).toPlainObject).timeout
      = (QueueTask.construct env gid o).timeout ∧
    (QueueTask.fromPlainObject env2 gid2 (QueueTask.construct env gid o).toPlainObject).runAt
      = (QueueTask.construct env gid o).runAt := by
  refine ⟨?_, ?_, ?_, ?_, ?_, ?_, ?_, ?_, ?_, ?_⟩ <;>
    simp only [QueueTask.fromPlainObject, QueueTask.construct, QueueTask.toPlainObject,
      Option.getD_some]
  · exact jsOrStr_roundTrip o.uid gid gid2 hgid
  · exact jsOrInt_zero_roundTrip o.priority
  · exact jsOrNat_roundTrip o.maxRetries (jsOrNat env.maxTaskRetries 3) _ (jsOrNat_ne_zero _ 3 (by decide))
  · exact jsOrNat_roundTrip o.timeout (jsOrNat env.taskTimeoutMs 30000) _ (jsOrNat_ne_zero _ 30000 (by decide))

/-- Concrete options record used by the C9 witness. -/
def sampleOptions : TaskOptions Unit :=
  { name := "sample", type := "sample-type", priority := some 2, maxRetries := some 5, data := () }

/-- Witness for C9 at a concrete options record and generated id. -/
theorem fromPlainObject_roundTrip_witness :
    ("task_1" : String) ≠ "" ∧
    (QueueTask.fromPlainObject {} "task_2"
        (QueueTask.construct {} "task_1" sampleOptions).toPlainObject).uid
      = (QueueTask.construct {} "task_1" sampleOptions).uid ∧
    (QueueTask.fromPlainObject {} "task_2"
        (QueueTask.construct {} "task_1" sampleOptions).toPlainObject).maxRetries
      = (QueueTask.construct {} "task_1" sampleOptions).maxRetries :=
  have h := fromPlainObject_roundTrip (α := Unit) {} {} "task_1" "task_2" sampleOptions (by decide)
  ⟨by decide, h.1, h.2.2.2.2.2.2.2.1⟩

/-- The `Queue.remove` method (`src/index.ts`, lines 345-356, and the
`silent` variant in `src/types/index.d.ts`, lines 342-358): `findIndex` on
`uid` followed by `splice(index, 1)`; returns whether a task was removed.
The `silent` flag only suppresses logging and does not affect the stack. -/
def removeFromStack (stack : List (QueueTask α)) (uid : String) : List (QueueTask α) × Bool :=
  match stack.findIdx? (fun t => t.uid == uid) with
  | some i => (stack.eraseIdx i, true)
  | none => (stack, false)

/-- C10: `Queue.remove(uid)` removes exactly the first task carrying `uid`
(preserving every other task and their relative order) and returns `true`;
when no task carries `uid` the stack is returned unchanged with `false`. -/
theorem removeFromStack_cons (x : QueueTask α) (xs : List (QueueTask α)) (uid : String) :
    removeFromStack (x :: xs) uid =
      if x.uid == uid then (xs, true)
      else (x :: (removeFromStack xs uid).1, (removeFromStack xs uid).2) := by
  by_cases h : (x.uid == uid) = true
  · simp [removeFromStack, List.findIdx?_cons, h]
  · simp only [Bool.not_eq_true] at h
    cases hfind : List.findIdx? (fun t => t.uid == uid) xs with
    | some i =>
      simp [removeFromStack, List.findIdx?_cons, h, hfind]
    | none =>
      simp [removeFromStack, List.findIdx?_cons, h, hfind]

theorem removeFromStack_semantics {α : Type} (stack : List (QueueTask α)) (uid : String) :
    ((∀ t ∈ stack, t.uid ≠ uid) → removeFromStack stack uid = (stack, false)) ∧
    (∀ (l₁ l₂ : List (QueueTask α)) (t : QueueTask α),
      stack = l₁ ++ t :: l₂ → t.uid = uid → (∀ u ∈ l₁, u.uid ≠ uid) →
      removeFromStack stack uid = (l₁ ++ l₂, true)) := by
  induction stack with
  | nil =>
    refine ⟨fun _ => rfl, ?_⟩
    intro l₁ l₂ t h _ _
    exact absurd h (by simp)
  | cons x xs ih =>
    constructor
    · intro hall
      have hx : (x.uid == uid) = false := by
        simpa using hall x (by simp)
      rw [removeFromStack_cons]
      simp [hx, ih.1 (fun t ht => hall t (by simp [ht]))]
    · intro l₁ l₂ t hsplit ht hfirst
      cases l₁ with
      | nil =>
        simp only [List.nil_append, List.cons.injEq] at hsplit
        obtain ⟨hx, hxs⟩ := hsplit
        subst hx
        rw [removeFromStack_cons]
        simp [ht, hxs]
      | cons y l₁ =>
        simp only [List.cons_append, List.cons.injEq] at hsplit
        obtain ⟨hx, hxs⟩ := hsplit
        subst hx
        have hy : (x.uid == uid) = false := by
          simpa using hfirst x (by simp)
        have hrec := ih.2 l₁ l₂ t hxs ht (fun u hu => hfirst u (by simp [hu]))
        rw [removeFromStack_cons]
        simp [hy, hrec]

/-- Witness for C10: removing a present uid from a two-task stack drops
exactly the first occurrence, and removing an absent uid returns the stack
unchanged with `false`. -/
theorem removeFromStack_semantics_witness :
    removeFromStack [sampleTask, { sampleTask with uid := "task-2" }] "task-2"
      = ([sampleTask], true) ∧
    removeFromStack [sampleTask] "task-9" = ([sampleTask], false) :=
  ⟨(removeFromStack_semantics [sampleTask, { sampleTask with uid := "task-2" }] "task-2").2
      [sampleTask] [] { sampleTask with uid := "task-2" } rfl rfl (by decide),
    (removeFromStack_semantics [sampleTask] "task-9").1 (by decide)⟩

/-- Specification helper: the source representations of the function
validators whose result on `t` is falsy, in schema order. -/
def schemaFailCodes (t : QueueTask α) (schema : List (Validator α)) : List String :=
  schema.filterMap
    (fun v =>
      match v with
      | .notFn => none
      | .fn code f => if (f t).truthy then none else some code)

/-- Specification helper: every function validator in the schema returns a
truthy value on `t`. -/
def schemaAllTruthy (t : QueueTask α) (schema : List (Validator α)) : Bool :=
  schema.all
    (fun v =>
      match v with
      | .notFn => true
      | .fn _ f => (f t).truthy)

/-- The failure record `validate` builds for the validator with source
representation `code`. -/
def failResult (code : String) : ValidationResult :=
  { passed := false,
    reason := "ValidationRule \"" ++ code ++ "\" did not resolve to true" }

/-- Helper: `validate`, starting from any accumulator, is determined by the
last falsy validator. -/
theorem validate_foldl_eq (t : QueueTask α) (schema : List (Validator α))
    (acc : ValidationResult) :
    schema.foldl
      (fun res v =>
        match v with
        | .notFn => res
        | .fn code f =>
            if (f t).truthy then res
            else { passed := false,
                   reason := "ValidationRule \"" ++ code ++ "\" did not resolve to true" })
      acc =
    (match (schemaFailCodes t schema).getLast? with
     | none => acc
     | some code => failResult code) := by
  induction schema generalizing acc with
  | nil => simp [schemaFailCodes]
  | cons v rest ih =>
    cases v with
    | notFn =>
      simp only [List.foldl_cons, schemaFailCodes, List.filterMap_cons]
      exact ih acc
    | fn code f =>
      by_cases hf : (f t).truthy = true
      · simp only [List.foldl_cons, hf, if_true, schemaFailCodes, List.filterMap_cons]
        exact ih acc
      · simp only [Bool.not_eq_true] at hf
        have ih2 := ih (failResult code)
        simp only [failResult, schemaFailCodes] at ih2
        simp only [List.foldl_cons, hf, Bool.false_eq_true, if_false, schemaFailCodes,
          List.filterMap_cons]
        rw [ih2]
        cases hrest : List.filterMap
            (fun v =>
              match v with
              | Validator.notFn => none
              | Validator.fn code f => if (f t).truthy = true then none else some code)
            rest with
        | nil => simp [hrest, failResult]
        | cons c2 l2 =>
          cases hl : (c2 :: l2).getLast? with
          | none => simp [List.getLast?_eq_none_iff] at hl
          | some c3 =>
            rw [List.getLast?_cons_cons, hl]
            simp [failResult]

/-- C8 (amended): `validate(predicates)` returns `passed = true` exactly
when every predicate that is a function returns a truthy value (JS
truthiness, not the boolean `true`); when some function predicate returns a
falsy value, `passed = false` and the reason identifies the last (not the
first) falsy predicate by its source representation. -/
theorem validate_semantics {α : Type} (t : QueueTask α) (schema : List (Validator α)) :
    ((t.validate schema).passed = true ↔ schemaAllTruthy t schema = true) ∧
    (schemaFailCodes t schema = [] →
      t.validate schema = { passed := true, reason := "Validation passed" }) ∧
    (∀ code, (schemaFailCodes t schema).getLast? = some code →
      t.validate schema = failResult code) := by
  have hfold := validate_foldl_eq t schema { passed := true, reason := "Validation passed" }
  refine ⟨?_, ?_, ?_⟩
  · rw [QueueTask.validate, hfold]
    cases hlast : (schemaFailCodes t schema).getLast? with
    | none =>
      simp only [List.getLast?_eq_none_iff] at hlast
      constructor
      · intro _
        simp only [schemaAllTruthy, List.all_eq_true]
        intro v hv
        cases v with
        | notFn => rfl
        | fn code f =>
          by_cases hf : (f t).truthy = true
          · simpa using hf
          · exfalso
            simp only [Bool.not_eq_true] at hf
            have : some code ∈ schema.map
                (fun v =>
                  match v with
                  | Validator.notFn => none
                  | Validator.fn code f => if (f t).truthy then none else some code) := by
              refine List.mem_map.mpr ⟨Validator.fn code f, hv, ?_⟩
              simp [hf]
            have hmem : code ∈ schemaFailCodes t schema := by
              simp only [schemaFailCodes, List.mem_filterMap]
              obtain ⟨v2, hv2, he⟩ := List.mem_map.mp this
              exact ⟨v2, hv2, he⟩
            simp [hlast] at hmem
      · intro _
        rfl
    | some code =>
      constructor
      · intro h
        exact absurd h (by simp [failResult])
      · intro hall
        exfalso
        have hx : code ∈ (schemaFailCodes t schema).getLast? := by
          rw [hlast]
          rfl
        obtain ⟨hne, heq⟩ := List.mem_getLast?_eq_getLast hx
        have hcode : code ∈ schemaFailCodes t schema := heq ▸ List.getLast_mem hne
        simp only [schemaFailCodes, List.mem_filterMap] at hcode
        obtain ⟨v, hv, he⟩ := hcode
        cases v with
        | notFn => simp at he
        | fn c2 f =>
          simp only [schemaAllTruthy, List.all_eq_true] at hall
          have := hall (Validator.fn c2 f) hv
          simp only at this
          simp [this] at he
  · intro hnil
    rw [QueueTask.validate, hfold, hnil]
    rfl
  · intro code hlast
    rw [QueueTask.validate, hfold, hlast]

/-- Schema with a single function validator returning a truthy non-boolean
value, used to separate JS truthiness from strict equality with `true`. -/
def truthySchema : List (Validator Unit) :=
  [Validator.fn "(task) => 1" (fun _ => JSVal.truthyVal)]

/-- Counterexample to C8 as stated: with a single callable predicate that
returns the truthy non-boolean value `1`, `validate` returns
`passed = true` although the predicate does not return exactly `true`, so
"passed iff every callable predicate returns exactly true" fails.  (The
code tests `!validator(this)`, i.e. truthiness, not strict equality with
`true`; moreover on several falsy validators the reason keeps the last,
not the first, because the `forEach` keeps overwriting it.) -/
theorem validate_cex :
    (sampleTask.validate truthySchema).passed = true ∧
    ¬ (∀ v ∈ truthySchema, ∀ code f, v = Validator.fn code f → f sampleTask = JSVal.vTrue) := by
  constructor
  · rfl
  · intro h
    have := h (Validator.fn "(task) => 1" (fun _ => JSVal.truthyVal)) (by simp [truthySchema])
      "(task) => 1" (fun _ => JSVal.truthyVal) rfl
    simp at this

/-- Two-validator schema where both validators are falsy, used by the C8
witness to exhibit the last-failure reason. -/
def twoFalsySchema : List (Validator Unit) :=
  [Validator.fn "(task) => false" (fun _ => JSVal.vFalse),
   Validator.fn "(task) => 0" (fun _ => JSVal.falsyVal)]

/-- Witness for C8 (amended) on a concrete schema with two falsy
validators: the reason identifies the second (last) one. -/
theorem validate_semantics_witness :
    (schemaFailCodes sampleTask twoFalsySchema).getLast? = some "(task) => 0" ∧
    sampleTask.validate twoFalsySchema = failResult "(task) => 0" :=
  ⟨rfl, (validate_semantics sampleTask twoFalsySchema).2.2 "(task) => 0" rfl⟩

/-- Dispatch counters returned by both strategies. -/
structure Stats where
  tasksSent : Nat := 0
  noWorkerAvailable : Nat := 0
  noExecutorFound : Nat := 0
  validationFailed : Nat := 0
deriving DecidableEq, Repr

/-- An executor as the dispatch strategies consult it: its (sanitized)
`validationSchema()`.  The execution members (`exec`, hooks, `retrySchema`)
do not affect the dispatch bookkeeping; the `onFailure` hook awaited on the
validation-failed path has no effect on the queue state. -/
structure StratExecutor (α : Type) where
  validationSchema : List (Validator α)

/-- Oracle for the surroundings of one dispatch cycle: executor lookup by
task type (`queue.executorRegistry.getExecutor`), and whether the n-th
`workers.getAvailable()` call of the cycle returns a worker. -/
structure DispatchEnv (α : Type) where
  executorFor : String → Option (StratExecutor α)
  workerAvail : Nat → Bool

/-- A message sent to a worker by a strategy. -/
inductive SentMsg (α : Type) where
  | taskSingle (task : QueueTask α)
  | taskBatch (wid : String) (batch : List (QueueTask α))
deriving DecidableEq

/-- The uids of the tasks carried by a message. -/
def SentMsg.uids : SentMsg α → List String
  | .taskSingle t => [t.uid]
  | .taskBatch _ b => b.map (fun t => t.uid)

/-- Target worker of a `taskBatch` message. -/
def SentMsg.target : SentMsg α → Option String
  | .taskSingle _ => none
  | .taskBatch w _ => some w

/-- State threaded through a dispatch strategy run: the counters, the
number of `getAvailable()` calls made so far, the in-memory task stack, the
messages sent, the log of `queue.remove(uid, silent)` calls, the
`store.saveTask` calls, and `exhausted`, an instrumentation counter (not in
the source) recording the tasks dropped on the validation-failed path with
`retryCount >= maxRetries` — the path that touches no counter. -/
structure StratState (α : Type) where
  stats : Stats := {}
  availCalls : Nat := 0
  stack : List (QueueTask α) := []
  msgs : List (SentMsg α) := []
  removals : List (String × Bool) := []
  saves : List (QueueTask α) := []
  exhausted : Nat := 0

/-- Effect of a `queue.remove(uid, silent)` call on the dispatch state. -/
def queueRemove (s : StratState α) (uid : String) (silent : Bool) : StratState α :=
  { s with
    stack := (removeFromStack s.stack uid).1
    removals := s.removals ++ [(uid, silent)] }

/-- One iteration of the `for` loop of the `single` strategy
(`src/src/worker-manager.ts`, dispatch-strategy document, lines 439-504).
The loop reads the task fields at entry of the iteration; the in-place
mutations of the retryable validation-failure branch (`status`,
`retryCount`, `addError`) affect only objects that the rest of the cycle
does not read again. -/
def singleStep (env : DispatchEnv α) (now : Nat) (s : StratState α)
    (task : QueueTask α) : StratState α :=
  let s0 := { s with availCalls := s.availCalls + 1 }
  if env.workerAvail s.availCalls = false then
    { s0 with stats := { s0.stats with noWorkerAvailable := s0.stats.noWorkerAvailable + 1 } }
  else
    match env.executorFor task.type with
    | none =>
        queueRemove
          { s0 with stats := { s0.stats with noExecutorFound := s0.stats.noExecutorFound + 1 } }
          task.uid false
    | some ex =>
        if (task.validate ex.validationSchema).passed = false then
          if task.retryCount ≥ task.maxRetries then
            let failed := { task with status := .failed, failedAt := some now }
            let s1 := queueRemove s0 task.uid false
            { s1 with saves := s1.saves ++ [failed], exhausted := s1.exhausted + 1 }
          else
            { s0 with stats := { s0.stats with validationFailed := s0.stats.validationFailed + 1 } }
        else
          let s1 := { s0 with msgs := s0.msgs ++ [.taskSingle task] }
          let s2 := queueRemove s1 task.uid true
          { s2 with stats := { s2.stats with tasksSent := s2.stats.tasksSent + 1 } }

/-- The `single` dispatch strategy (lines 431-507): fold of `singleStep`
over the input tasks. -/
def single (env : DispatchEnv α) (now : Nat) (tasks : List (QueueTask α))
    (s : StratState α) : StratState α :=
  tasks.foldl (singleStep env now) s

/-- Parent-side worker-handle fields consulted by the scheduler: the
`maxConcurrentTasks` cap and the `taskLoad` of the cached `WorkerInfo`
(`none` when the worker was never polled). -/
structure WorkerH where
  wid : String
  maxConcurrentTasks : Int
  cachedLoad : Option Int
deriving DecidableEq, Repr

/-- `WorkerManager.getAvailableWorkers` (second document of
`src/src/worker-manager.ts`, lines 300-316): keep the workers having cached
info with `taskLoad` strictly below the cap, sorted ascending by the load
ratio `taskLoad / maxConcurrentTasks` (the V8 sort is stable). -/
def getAvailableWorkers (ws : List WorkerH) : List WorkerH :=
  (ws.filter fun w =>
    match w.cachedLoad with
    | some load => decide (load < w.maxConcurrentTasks)
    | none => false).mergeSort
    (fun a b =>
      decide (((a.cachedLoad.getD 0 : Int) : Rat) / ((a.maxConcurrentTasks : Int) : Rat)
        ≤ ((b.cachedLoad.getD 0 : Int) : Rat) / ((b.maxConcurrentTasks : Int) : Rat)))

/-- The per-task executor/validation checks of the inner loop of the
`batch` strategy (lines 533-584).  Returns the updated dispatch state and
the task as it remains inside the `batch` array — the loop only counts and
mutates; it never filters the array, so the task stays in the batch that is
sent afterwards, mutated in place on the failure branches. -/
def checkBatchTask (env : DispatchEnv α) (now : Nat) (s : StratState α)
    (task : QueueTask α) : StratState α × QueueTask α :=
  match env.executorFor task.type with
  | none =>
      (queueRemove
        { s with stats := { s.stats with noExecutorFound := s.stats.noExecutorFound + 1 } }
        task.uid false, task)
  | some ex =>
      let v := task.validate ex.validationSchema
      if v.passed = false then
        if task.retryCount ≥ task.maxRetries then
          let failed := { task with status := .failed, failedAt := some now }
          let s1 := queueRemove s task.uid false
          ({ s1 with saves := s1.saves ++ [failed], exhausted := s1.exhausted + 1 }, failed)
        else
          let failed := ({ task with status := .failed, retryCount := task.retryCount + 1
              : QueueTask α }).addError
            ("Task " ++ task.name ++ " validation failed: " ++ v.reason)
          ({ s with stats := { s.stats with validationFailed := s.stats.validationFailed + 1 } },
            failed)
      else (s, task)

/-- The inner `for (const task of batch)` loop of the `batch` strategy,
accumulating the (possibly mutated) batch array. -/
def checkBatchFold (env : DispatchEnv α) (now : Nat) (b : List (QueueTask α))
    (s : StratState α) (acc : List (QueueTask α)) : StratState α × List (QueueTask α) :=
  b.foldl
    (fun acc2 task =>
      ((checkBatchTask env now acc2.1 task).1,
        acc2.2 ++ [(checkBatchTask env now acc2.1 task).2]))
    (s, acc)

/-- The trailing `for (const task of batch) queue.remove(task.uid, true)`
loop of the `batch` strategy. -/
def removeBatchFold (bs : List (QueueTask α)) (s : StratState α) : StratState α :=
  bs.foldl (fun s3 task => queueRemove s3 task.uid true) s

/-- One iteration of the worker loop of the `batch` strategy (lines
519-593): compute the remaining capacity `maxConcurrentTasks - taskLoad`,
skip (counting `noWorkerAvailable`) when it is non-positive or no tasks
remain, `splice(0, capacity)` off the head of the task list, run the
per-task checks, send the whole spliced batch as one `taskBatch` message,
silently remove every spliced task, and add the batch length to
`tasksSent`. -/
def batchWorkerStep (env : DispatchEnv α) (now : Nat)
    (st : StratState α × List (QueueTask α)) (w : WorkerH) :
    StratState α × List (QueueTask α) :=
  let s := st.1
  let remaining := st.2
  let capacity : Int := w.maxConcurrentTasks - w.cachedLoad.getD 0
  if capacity ≤ 0 ∨ remaining.length = 0 then
    ({ s with stats := { s.stats with noWorkerAvailable := s.stats.noWorkerAvailable + 1 } },
      remaining)
  else
    let b := remaining.take capacity.toNat
    let remaining2 := remaining.drop capacity.toNat
    if b.length = 0 then (s, remaining2)
    else
      let checked := checkBatchFold env now b s []
      let s1 := { checked.1 with msgs := checked.1.msgs ++ [.taskBatch w.wid checked.2] }
      let s2 := removeBatchFold checked.2 s1
      ({ s2 with stats := { s2.stats with tasksSent := s2.stats.tasksSent + checked.2.length } },
        remaining2)

/-- The `batch` dispatch strategy (lines 509-596): fold of the worker loop
over `getAvailableWorkers()`; also returns the tasks left over after all
`splice` calls. -/
def batch (env : DispatchEnv α) (now : Nat) (ws : List WorkerH)
    (tasks : List (QueueTask α)) (s : StratState α) :
    StratState α × List (QueueTask α) :=
  (getAvailableWorkers ws).foldl (batchWorkerStep env now) (s, tasks)

/-- Sum of the four counters a strategy returns. -/
def countersTotal (s : StratState α) : Nat :=
  s.stats.tasksSent + s.stats.noWorkerAvailable + s.stats.noExecutorFound
    + s.stats.validationFailed

/-- Helper: each iteration of the `single` loop accounts for exactly one
task, but only when the silent max-retries drop is counted as well. -/
theorem singleStep_total (env : DispatchEnv α) (now : Nat) (s : StratState α)
    (task : QueueTask α) :
    countersTotal (singleStep env now s task) + (singleStep env now s task).exhausted
      = countersTotal s + s.exhausted + 1 := by
  simp only [singleStep]
  split
  · simp [countersTotal]
    omega
  · split
    · simp [countersTotal, queueRemove]
      omega
    · split
      · split
        · simp [countersTotal, queueRemove]
          omega
        · simp [countersTotal]
          omega
      · simp [countersTotal, queueRemove]
        omega

/-- Helper: the `single` counters plus the instrumented drop count add up
to the number of input tasks. -/
theorem single_total (env : DispatchEnv α) (now : Nat) :
    ∀ (tasks : List (QueueTask α)) (s : StratState α),
      countersTotal (single env now tasks s) + (single env now tasks s).exhausted
        = countersTotal s + s.exhausted + tasks.length := by
  intro tasks
  induction tasks with
  | nil => intro s; simp [single]
  | cons t ts ih =>
    intro s
    have hstep := singleStep_total env now s t
    have := ih (singleStep env now s t)
    simp only [single, List.foldl_cons, List.length_cons] at this ⊢
    omega

/-- Helper: `checkBatchTask` never touches `tasksSent`. -/
theorem checkBatchTask_tasksSent (env : DispatchEnv α) (now : Nat)
    (s : StratState α) (task : QueueTask α) :
    ((checkBatchTask env now s task).1).stats.tasksSent = s.stats.tasksSent := by
  simp only [checkBatchTask]
  split
  · simp [queueRemove]
  · split
    · split <;> simp [queueRemove]
    · simp

/-- Helper: the inner check loop of `batch` never touches `tasksSent`, and
appends exactly one output task per input task. -/
theorem checkBatchFold_tasksSent (env : DispatchEnv α) (now : Nat) :
    ∀ (b : List (QueueTask α)) (s : StratState α) (acc : List (QueueTask α)),
      ((checkBatchFold env now b s acc).1).stats.tasksSent = s.stats.tasksSent ∧
      ((checkBatchFold env now b s acc).2).length = acc.length + b.length := by
  intro b
  induction b with
  | nil => intro s acc; simp [checkBatchFold]
  | cons t ts ih =>
    intro s acc
    have h1 := checkBatchTask_tasksSent env now s t
    have h2 := ih ((checkBatchTask env now s t).1) (acc ++ [(checkBatchTask env now s t).2])
    simp only [checkBatchFold, List.foldl_cons] at h2 ⊢
    constructor
    · rw [h2.1, h1]
    · rw [h2.2]
      simp
      omega

/-- Helper: the silent-removal loop of `batch` never touches the stats. -/
theorem removeBatchFold_stats :
    ∀ (bs : List (QueueTask α)) (s : StratState α),
      (removeBatchFold bs s).stats = s.stats := by
  intro bs
  induction bs with
  | nil => intro s; rfl
  | cons t ts ih =>
    intro s
    simp only [removeBatchFold, List.foldl_cons] at ih ⊢
    rw [ih]
    rfl

/-- Helper: each worker iteration of `batch` conserves
`tasksSent + |remaining|`. -/
theorem batchWorkerStep_sent (env : DispatchEnv α) (now : Nat)
    (st : StratState α × List (QueueTask α)) (w : WorkerH) :
    ((batchWorkerStep env now st w).1).stats.tasksSent
        + ((batchWorkerStep env now st w).2).length
      = (st.1).stats.tasksSent + (st.2).length := by
  simp only [batchWorkerStep]
  split
  · simp
  · rename_i hcond
    split
    · rename_i hb
      simp only [List.length_take, List.length_drop] at hb ⊢
      omega
    · rename_i hb
      have hchk := checkBatchFold_tasksSent env now
        (st.2.take (w.maxConcurrentTasks - w.cachedLoad.getD 0).toNat) st.1 []
      have hrem := removeBatchFold_stats
        ((checkBatchFold env now
          (st.2.take (w.maxConcurrentTasks - w.cachedLoad.getD 0).toNat) st.1 []).2)
      simp only [List.length_nil, Nat.zero_add] at hchk
      simp only [hrem]
      simp only [hchk.1, hchk.2, List.length_take, List.length_drop]
      omega

/-- Helper: over any worker list, the `batch` fold conserves
`tasksSent + |remaining|`. -/
theorem batchFold_sent (env : DispatchEnv α) (now : Nat) :
    ∀ (ws : List WorkerH) (s : StratState α) (rem : List (QueueTask α)),
      ((ws.foldl (batchWorkerStep env now) (s, rem)).1).stats.tasksSent
          + ((ws.foldl (batchWorkerStep env now) (s, rem)).2).length
        = s.stats.tasksSent + rem.length := by
  intro ws
  induction ws with
  | nil => intro s rem; rfl
  | cons w ws ih =>
    intro s rem
    have hstep := batchWorkerStep_sent env now (s, rem) w
    dsimp only at hstep
    have := ih (batchWorkerStep env now (s, rem) w).1 (batchWorkerStep env now (s, rem) w).2
    simp only [Prod.mk.eta] at this
    simp only [List.foldl_cons] at this ⊢
    omega

/-- C1 (amended): dispatched-tasks accounting.  For the `single` strategy
the four counters sum to the number of input tasks only after adding the
tasks silently dropped on the validation-failed path with
`retryCount >= maxRetries` (the `exhausted` instrumentation counter), which
increment no counter.  For the `batch` strategy no such sum holds: instead
`tasksSent` counts every task spliced into a batch — including the ones
simultaneously counted under `noExecutorFound` or `validationFailed` — so
`tasksSent` alone equals the number of input tasks consumed
(`|input| - |left over|`), while `noWorkerAvailable` counts capacity-less
workers, not tasks. -/
theorem dispatch_counters_accounting {α : Type} :
    (∀ (env : DispatchEnv α) (now : Nat) (tasks : List (QueueTask α)),
      countersTotal (single env now tasks {}) + (single env now tasks {}).exhausted
        = tasks.length) ∧
    (∀ (env : DispatchEnv α) (now : Nat) (ws : List WorkerH) (tasks : List (QueueTask α)),
      ((batch env now ws tasks {}).1).stats.tasksSent
          + ((batch env now ws tasks {}).2).length
        = tasks.length) := by
  constructor
  · intro env now tasks
    have h := single_total env now tasks {}
    exact h.trans (by simp [countersTotal])
  · intro env now ws tasks
    have h := batchFold_sent env now (getAvailableWorkers ws) {} tasks
    exact h.trans (by simp)

/-- Validation schema whose single rule always returns `false`. -/
def falseSchema : List (Validator Unit) :=
  [Validator.fn "(task) => false" (fun _ => JSVal.vFalse)]

/-- Dispatch oracle with a worker always available and an executor (with an
always-failing validation rule) registered for every type. -/
def cexEnv : DispatchEnv Unit :=
  { executorFor := fun _ => some { validationSchema := falseSchema }
    workerAvail := fun _ => true }

/-- A task whose retries are already exhausted. -/
def exhaustedTask : QueueTask Unit := { sampleTask with retryCount := 3 }

/-- Counterexample to C1 as stated: one input task, a worker available and
an executor found, but validation fails with `retryCount >= maxRetries`:
the task is dropped and persisted without incrementing any counter, so
`tasksSent + noWorkerAvailable + noExecutorFound + validationFailed = 0`
while the input has one task. -/
theorem dispatch_counters_cex :
    countersTotal (single cexEnv 0 [exhaustedTask] {}) = 0 ∧
    (single cexEnv 0 [exhaustedTask] {}).exhausted = 1 ∧
    ([exhaustedTask] : List (QueueTask Unit)).length = 1 :=
  ⟨rfl, rfl, rfl⟩

/-! Frame lemmas for the `batch` strategy. -/

theorem checkBatchTask_frame (env : DispatchEnv α) (now : Nat) (s : StratState α)
    (task : QueueTask α) :
    ((checkBatchTask env now s task).1).msgs = s.msgs ∧
    (∃ l, ((checkBatchTask env now s task).1).removals = s.removals ++ l) ∧
    ((checkBatchTask env now s task).2).uid = task.uid := by
  simp only [checkBatchTask]
  split
  · exact ⟨rfl, ⟨[(task.uid, false)], rfl⟩, rfl⟩
  · split
    · split
      · exact ⟨rfl, ⟨[(task.uid, false)], rfl⟩, rfl⟩
      · exact ⟨rfl, ⟨[], by simp⟩, rfl⟩
    · exact ⟨rfl, ⟨[], by simp⟩, rfl⟩

theorem checkBatchFold_frame (env : DispatchEnv α) (now : Nat) :
    ∀ (b : List (QueueTask α)) (s : StratState α) (acc : List (QueueTask α)),
      ((checkBatchFold env now b s acc).1).msgs = s.msgs ∧
      (∃ l, ((checkBatchFold env now b s acc).1).removals = s.removals ++ l) ∧
      ((checkBatchFold env now b s acc).2).map (fun t => t.uid)
        = acc.map (fun t => t.uid) ++ b.map (fun t => t.uid) := by
  intro b
  induction b with
  | nil =>
    intro s acc
    exact ⟨rfl, ⟨[], by simp [checkBatchFold]⟩, by simp [checkBatchFold]⟩
  | cons t ts ih =>
    intro s acc
    obtain ⟨hm1, ⟨l1, hr1⟩, hu1⟩ := checkBatchTask_frame env now s t
    obtain ⟨hm2, ⟨l2, hr2⟩, hu2⟩ :=
      ih ((checkBatchTask env now s t).1) (acc ++ [(checkBatchTask env now s t).2])
    simp only [checkBatchFold, List.foldl_cons] at hm2 hr2 hu2 ⊢
    refine ⟨hm2.trans hm1, ⟨l1 ++ l2, ?_⟩, ?_⟩
    · rw [hr2, hr1, List.append_assoc]
    · rw [hu2]
      simp [hu1]

theorem removeBatchFold_frame :
    ∀ (bs : List (QueueTask α)) (s : StratState α),
      (removeBatchFold bs s).msgs = s.msgs ∧
      (removeBatchFold bs s).removals
        = s.removals ++ bs.map (fun t => (t.uid, true)) := by
  intro bs
  induction bs with
  | nil => intro s; exact ⟨rfl, by simp [removeBatchFold]⟩
  | cons t ts ih =>
    intro s
    have h := ih (queueRemove s t.uid true)
    simp only [removeBatchFold, List.foldl_cons] at h ⊢
    refine ⟨h.1, ?_⟩
    rw [h.2]
    simp [queueRemove]

/-- Helper: the batching facts for one worker iteration of the `batch`
strategy: uid conservation, removal-log extension, message-target order,
and silent-removal coverage of sent batches. -/
theorem batchWorkerStep_c5 (env : DispatchEnv α) (now : Nat)
    (st : StratState α × List (QueueTask α)) (w : WorkerH) :
    ((((batchWorkerStep env now st w).1).msgs.map SentMsg.uids).flatten
        ++ ((batchWorkerStep env now st w).2).map (fun t => t.uid)
      = ((st.1.msgs.map SentMsg.uids).flatten) ++ st.2.map (fun t => t.uid)) ∧
    (∃ l, ((batchWorkerStep env now st w).1).removals = st.1.removals ++ l) ∧
    (∃ sub, ((batchWorkerStep env now st w).1).msgs.filterMap SentMsg.target
        = st.1.msgs.filterMap SentMsg.target ++ sub ∧ sub.Sublist [w.wid]) ∧
    ((∀ m ∈ st.1.msgs, ∀ u ∈ SentMsg.uids m, (u, true) ∈ st.1.removals) →
      (∀ m ∈ ((batchWorkerStep env now st w).1).msgs, ∀ u ∈ SentMsg.uids m,
        (u, true) ∈ ((batchWorkerStep env now st w).1).removals)) := by
  simp only [batchWorkerStep]
  split
  · exact ⟨rfl, ⟨[], by simp⟩, ⟨[], by simp, List.nil_sublist _⟩, fun h => h⟩
  · rename_i hcond
    split
    · rename_i hb
      exfalso
      simp only [not_or] at hcond
      simp only [List.length_take] at hb
      omega
    · rename_i hb
      obtain ⟨hchkm, ⟨l1, hchkr⟩, hchku⟩ := checkBatchFold_frame env now
        (st.2.take (w.maxConcurrentTasks - w.cachedLoad.getD 0).toNat) st.1 []
      have hrem := removeBatchFold_frame
        ((checkBatchFold env now
          (st.2.take (w.maxConcurrentTasks - w.cachedLoad.getD 0).toNat) st.1 []).2)
      simp only [List.map_nil, List.nil_append] at hchku
      refine ⟨?_, ?_, ?_, ?_⟩
      · dsimp only
        rw [(hrem _).1]
        dsimp only
        rw [hchkm]
        simp only [List.map_append, List.flatten_append, List.map_cons, List.map_nil,
          List.flatten_cons, List.flatten_nil, List.append_nil, SentMsg.uids, hchku]
        conv_rhs => rw [← List.take_append_drop
          (w.maxConcurrentTasks - w.cachedLoad.getD 0).toNat st.2, List.map_append]
        simp [List.append_assoc]
      · refine ⟨l1 ++ ((checkBatchFold env now
          (st.2.take (w.maxConcurrentTasks - w.cachedLoad.getD 0).toNat) st.1 []).2).map
            (fun t => (t.uid, true)), ?_⟩
        dsimp only
        rw [(hrem _).2]
        dsimp only
        rw [hchkr]
        simp [List.append_assoc]
      · refine ⟨[w.wid], ?_, List.Sublist.refl _⟩
        dsimp only
        rw [(hrem _).1]
        dsimp only
        rw [hchkm]
        simp [SentMsg.target]
      · intro h m hm u hu
        dsimp only at hm ⊢
        rw [(hrem _).1] at hm
        dsimp only at hm
        rw [hchkm] at hm
        rw [(hrem _).2]
        dsimp only
        rw [hchkr]
        rcases List.mem_append.mp hm with hold | hnew
        · exact List.mem_append_left _ (List.mem_append_left _ (h m hold u hu))
        · simp only [List.mem_singleton] at hnew
          subst hnew
          simp only [SentMsg.uids, List.mem_map] at hu
          obtain ⟨t, ht, htu⟩ := hu
          refine List.mem_append_right _ ?_
          exact List.mem_map.mpr ⟨t, ht, by rw [htu]⟩

/-- Helper: the batching facts over any worker list. -/
theorem batchFold_c5 (env : DispatchEnv α) (now : Nat) :
    ∀ (ws : List WorkerH) (s : StratState α) (rem : List (QueueTask α)),
      ((((ws.foldl (batchWorkerStep env now) (s, rem)).1).msgs.map SentMsg.uids).flatten
          ++ ((ws.foldl (batchWorkerStep env now) (s, rem)).2).map (fun t => t.uid)
        = ((s.msgs.map SentMsg.uids).flatten) ++ rem.map (fun t => t.uid)) ∧
      (∃ l, ((ws.foldl (batchWorkerStep env now) (s, rem)).1).removals
        = s.removals ++ l) ∧
      (∃ sub, ((ws.foldl (batchWorkerStep env now) (s, rem)).1).msgs.filterMap SentMsg.target
          = s.msgs.filterMap SentMsg.target ++ sub ∧
        sub.Sublist (ws.map (fun w => w.wid))) ∧
      ((∀ m ∈ s.msgs, ∀ u ∈ SentMsg.uids m, (u, true) ∈ s.removals) →
        (∀ m ∈ ((ws.foldl (batchWorkerStep env now) (s, rem)).1).msgs,
          ∀ u ∈ SentMsg.uids m,
            (u, true) ∈ ((ws.foldl (batchWorkerStep env now) (s, rem)).1).removals)) := by
  intro ws
  induction ws with
  | nil =>
    intro s rem
    exact ⟨rfl, ⟨[], by simp⟩, ⟨[], by simp, List.Sublist.refl _⟩, fun h => h⟩
  | cons w ws ih =>
    intro s rem
    obtain ⟨h1, ⟨l1, h2⟩, ⟨sub1, h3, h3s⟩, h4⟩ := batchWorkerStep_c5 env now (s, rem) w
    obtain ⟨g1, ⟨l2, g2⟩, ⟨sub2, g3, g3s⟩, g4⟩ :=
      ih (batchWorkerStep env now (s, rem) w).1 (batchWorkerStep env now (s, rem) w).2
    simp only [Prod.mk.eta] at g1 g2 g3 g4
    simp only [List.foldl_cons]
    refine ⟨g1.trans h1, ⟨l1 ++ l2, by rw [g2, h2, List.append_assoc]⟩,
      ⟨sub1 ++ sub2, by rw [g3, h3, List.append_assoc], ?_⟩, fun h => g4 (h4 h)⟩
    simpa using List.Sublist.append h3s g3s

/-- C5 (amended): the `batch` strategy takes, for each worker returned by
`getAvailableWorkers()` in that (ascending load-ratio) order, a
`splice(0, capacity)` segment off the head of the remaining task list, and
the single `taskBatch` message sent to that worker carries the whole
segment — including the tasks that failed the executor or validation
checks, which are only counted, mutated in place and kept in the array —
and every task of the segment is afterwards removed silently.  Formally:
the uids in the sent batches, in order, followed by the left-over uids, are
exactly the input uids; the targets of the sent messages follow the
`getAvailableWorkers()` order; and every uid of a sent batch appears in the
removal log with the silent flag. -/
theorem batch_dispatch_semantics {α : Type} (env : DispatchEnv α) (now : Nat)
    (ws : List WorkerH) (tasks : List (QueueTask α)) (s0 : StratState α) :
    ((((batch env now ws tasks s0).1).msgs.map SentMsg.uids).flatten
        ++ ((batch env now ws tasks s0).2).map (fun t => t.uid)
      = ((s0.msgs.map SentMsg.uids).flatten) ++ tasks.map (fun t => t.uid)) ∧
    (∃ sub, (((batch env now ws tasks s0).1).msgs.filterMap SentMsg.target
        = s0.msgs.filterMap SentMsg.target ++ sub) ∧
      sub.Sublist ((getAvailableWorkers ws).map (fun w => w.wid))) ∧
    ((∀ m ∈ s0.msgs, ∀ u ∈ SentMsg.uids m, (u, true) ∈ s0.removals) →
      ∀ m ∈ ((batch env now ws tasks s0).1).msgs, ∀ u ∈ SentMsg.uids m,
        (u, true) ∈ ((batch env now ws tasks s0).1).removals) := by
  obtain ⟨h1, _, h3, h4⟩ := batchFold_c5 env now (getAvailableWorkers ws) s0 tasks
  exact ⟨h1, h3, h4⟩

/-- A worker handle with free capacity used by concrete `batch` runs. -/
def freshWorker : WorkerH := { wid := "w1", maxConcurrentTasks := 3, cachedLoad := some 0 }

/-- Counterexample to C5 as stated: a single retryable task that fails
validation is nevertheless contained in the `taskBatch` message sent to the
worker (the batch is never filtered), so the message does not contain only
the tasks that passed the checks. -/
theorem batch_dispatch_cex :
    (((batch cexEnv 0 [freshWorker] [sampleTask] {}).1).msgs.map SentMsg.uids).flatten
      = [sampleTask.uid] ∧
    (sampleTask.validate falseSchema).passed = false ∧
    ((batch cexEnv 0 [freshWorker] [sampleTask] {}).1).stats.validationFailed = 1 := by
  have hga : getAvailableWorkers [freshWorker] = [freshWorker] := by
    simp [getAvailableWorkers, freshWorker]
  refine ⟨?_, rfl, ?_⟩ <;> simp only [batch, hga] <;> rfl

/-- Witness for C5 on a concrete run: one worker with capacity 3 and one
passing-free task list; the sent uids followed by the left-overs are the
input uids, and the sent uid is logged as silently removed. -/
theorem batch_dispatch_semantics_witness :
    ((((batch cexEnv 0 [freshWorker] [sampleTask] {}).1).msgs.map SentMsg.uids).flatten
        ++ ((batch cexEnv 0 [freshWorker] [sampleTask] {}).2).map (fun t => t.uid)
      = ((({} : StratState Unit).msgs.map SentMsg.uids).flatten)
          ++ [sampleTask].map (fun t => t.uid)) ∧
    (∀ m ∈ (((batch cexEnv 0 [freshWorker] [sampleTask] {}).1)).msgs,
      ∀ u ∈ SentMsg.uids m,
        (u, true) ∈ ((batch cexEnv 0 [freshWorker] [sampleTask] {}).1).removals) :=
  ⟨(batch_dispatch_semantics cexEnv 0 [freshWorker] [sampleTask] {}).1,
    (batch_dispatch_semantics cexEnv 0 [freshWorker] [sampleTask] {}).2.2
      (by intro m hm; simp at hm)⟩

/-- Outcome of awaiting a piece of JS async code: a settled value or a
thrown/rejected error. -/
inductive RunOutcome (ρ : Type) where
  | value (r : ρ)
  | thrown (msg : String)
deriving DecidableEq, Repr

/-- `withWorkerCapacity` (`src/unnamed/part_001`, lines 104-116): the
capacity gate plus the guarded scope.  The gate throw happens before the
increment; otherwise `taskLoad` is incremented and the `finally` decrements
it again on every exit path, so the scope itself is load-neutral.  Returns
the task load after the call settles, together with the body outcome. -/
def withWorkerCapacity (workerId : String) (maxLoad taskLoad : Int)
    (body : RunOutcome ρ) : Int × RunOutcome ρ :=
  if taskLoad ≥ maxLoad then
    (taskLoad, .thrown ("[" ++ workerId ++ "] Currently under full load"))
  else (taskLoad + 1 - 1, body)

/-- The `taskLoad` bookkeeping of one `processTasks` iteration
(`src/unnamed/part_001`, lines 118-169): `try { await withWorkerCapacity(…)
} catch { … } finally { taskLoad-- }` — the outer `finally` decrements the
load once more on every path, on top of the decrement already performed
inside `withWorkerCapacity`. -/
def processOneTaskLoad (workerId : String) (maxLoad taskLoad : Int)
    (body : RunOutcome ρ) : Int :=
  (withWorkerCapacity workerId maxLoad taskLoad body).1 - 1

/-- C2 evaluation: the capacity gate itself behaves as specified (it throws
at `taskLoad >= MAX_TASK_LOAD` and the guarded scope is load-neutral), but
`processTasks` decrements `taskLoad` a second time in its own `finally`, so
every processed task leaves `taskLoad` lower by one instead of unchanged;
starting from `taskLoad = 0` a single completed task drives `taskLoad` to
`-1`, violating non-negativity. -/
theorem processTasks_taskLoad_bug :
    (∀ body : RunOutcome Unit,
      withWorkerCapacity "w1" 1 1 body = (1, .thrown "[w1] Currently under full load")) ∧
    (∀ body : RunOutcome Unit, (withWorkerCapacity "w1" 1 0 body).1 = 0) ∧
    (∀ (workerId : String) (maxLoad taskLoad : Int) (body : RunOutcome Unit),
      processOneTaskLoad workerId maxLoad taskLoad body = taskLoad - 1) ∧
    processOneTaskLoad "w1" 1 0 (RunOutcome.value ()) = -1 := by
  refine ⟨fun body => rfl, fun body => by norm_num [withWorkerCapacity], ?_, rfl⟩
  intro workerId maxLoad taskLoad body
  simp only [processOneTaskLoad, withWorkerCapacity]
  split <;> omega

/-- Result of a `WorkerManager.getAvailable()` call. -/
inductive AvailResult where
  | existing (w : WorkerH)
  | spawned (wid : String)
  | threw (msg : String)
deriving DecidableEq, Repr

/-- `WorkerManager.spawn` as `getAvailable` reaches it (second document of
`src/src/worker-manager.ts`, lines 388-423), reduced to its control flow:
throw when `size >= maxWorkers`, otherwise fork a child process and return
the new handle (the filesystem check for the worker script is assumed to
pass). -/
def spawnModel (maxWorkers : Nat) (ws : List WorkerH) (newId : String) : AvailResult :=
  if ws.length ≥ maxWorkers then
    .threw ("Maximum number of workers reached: "
      ++ toString ws.length ++ "/" ++ toString maxWorkers)
  else .spawned newId

/-- `WorkerManager.getAvailable` (lines 324-353): spawn when the worker map
is empty; keep the workers whose cached info shows
`taskLoad < maxConcurrentTasks`; spawn when none is available and
`maxWorkers > size`; otherwise `reduce` the available array to its
least-loaded entry — a JS `Array.reduce` without initial value, which
throws a `TypeError` when the array is empty. -/
def getAvailable (maxWorkers : Nat) (ws : List WorkerH) (newId : String) : AvailResult :=
  if ws.length = 0 then spawnModel maxWorkers ws newId
  else
    let avail := ws.filter fun w =>
      match w.cachedLoad with
      | some load => decide (load < w.maxConcurrentTasks)
      | none => false
    if avail.length = 0 ∧ maxWorkers > ws.length then spawnModel maxWorkers ws newId
    else
      match avail with
      | [] => .threw "TypeError: Reduce of empty array with no initial value"
      | w0 :: rest =>
          .existing (rest.foldl
            (fun prev cur =>
              if prev.cachedLoad.getD 0 ≤ cur.cachedLoad.getD 0 then prev else cur) w0)

/-- A worker whose cached load equals its cap. -/
def saturatedWorker : WorkerH := { wid := "w1", maxConcurrentTasks := 3, cachedLoad := some 3 }

/-- C6 evaluation: with one saturated worker and `maxWorkers = 1`,
`getAvailable` reaches `availableWorker.reduce(...)` on an empty array and
throws a `TypeError` instead of returning no worker; the other three arms
(spawn on empty map, spawn below `maxWorkers`, least-loaded selection)
behave as the claim states. -/
theorem getAvailable_saturated_throws :
    getAvailable 1 [saturatedWorker] "w2"
      = AvailResult.threw "TypeError: Reduce of empty array with no initial value" ∧
    getAvailable 1 [] "w1" = AvailResult.spawned "w1" ∧
    getAvailable 2 [saturatedWorker] "w2" = AvailResult.spawned "w2" ∧
    getAvailable 2 [saturatedWorker, freshWorker] "w3" = AvailResult.existing freshWorker :=
  ⟨rfl, rfl, rfl, rfl⟩

/-- A JS error as `PrismaAdapter.upsert` inspects it: its `code` property
when present with a string value (`hasProperty(err, "code", {type:
"string", value: "P202"})`), `none` otherwise. -/
structure DbError where
  code : Option String
deriving DecidableEq, Repr

/-- `PrismaAdapter.upsert` (`src/src/database-adapter.ts`, lines 65-103)
over the outcomes of the two underlying client calls: try the client
`upsert`; on an error whose `code` equals `"P202"` retry as `update`,
swallowing an update failure; on any other error fall through the `catch`
without rethrowing.  The returned promise therefore always resolves — with
the produced row, or with `undefined` (`none`) when nothing succeeded. -/
def adapterUpsert (u : Except DbError ρ) (upd : Except DbError ρ) :
    Except DbError (Option ρ) :=
  match u with
  | .ok row => .ok (some row)
  | .error e =>
      if e.code = some "P202" then
        match upd with
        | .ok row => .ok (some row)
        | .error _ => .ok none
      else .ok none

/-- C7 (amended): on a conflict error tagged with the adapter's
unique-constraint code (`"P202"`) the operation is retried as an update and
the updated row is returned; but no error is ever surfaced: the underlying
`upsert` result is returned on success, and every error — conflict-tagged
or not — is swallowed, the call resolving with `undefined` when no row was
produced. -/
theorem adapterUpsert_semantics {ρ : Type} :
    (∀ (row : ρ) (upd : Except DbError ρ),
      adapterUpsert (Except.ok row) upd = Except.ok (some row)) ∧
    (∀ (e : DbError) (row : ρ), e.code = some "P202" →
      adapterUpsert (Except.error e) (Except.ok row) = Except.ok (some row)) ∧
    (∀ (u upd : Except DbError ρ), ∃ v, adapterUpsert u upd = Except.ok v) := by
  refine ⟨fun row upd => rfl, ?_, ?_⟩
  · intro e row he
    simp [adapterUpsert, he]
  · intro u upd
    cases u with
    | ok row => exact ⟨some row, rfl⟩
    | error e =>
      simp only [adapterUpsert]
      split
      · cases upd with
        | ok row => exact ⟨some row, rfl⟩
        | error e2 => exact ⟨none, rfl⟩
      · exact ⟨none, rfl⟩

/-- Witness for C7 at a concrete conflict-tagged error. -/
theorem adapterUpsert_semantics_witness :
    (DbError.mk (some "P202")).code = some "P202" ∧
    adapterUpsert (Except.error (DbError.mk (some "P202"))) (Except.ok (7 : Nat))
      = Except.ok (some 7) :=
  ⟨rfl, (adapterUpsert_semantics (ρ := Nat)).2.1 (DbError.mk (some "P202")) 7 rfl⟩

/-- Counterexample to C7 as stated: an error not tagged `"P202"` — here
`"P2002"`, Prisma's actual unique-constraint code — is not surfaced to the
caller: the upsert resolves successfully with `undefined` instead of
rejecting. -/
theorem adapterUpsert_cex :
    adapterUpsert (Except.error (DbError.mk (some "P2002"))) (Except.ok (7 : Nat))
      = Except.ok none ∧
    (adapterUpsert (Except.error (DbError.mk (some "P2002")))
      (Except.ok (7 : Nat))).isOk = true :=
  ⟨rfl, rfl⟩

end Anqueue
